import Mathlib

/-!
Verification of the open-water / pool-results integration module
(src/Beta/ow_swimrankings_integration.py).

The development shallowly embeds the pure core of the module:

* time and date parsing (wa_time_to_seconds, sr_time_to_seconds,
  parse_iso_date, parse_sr_date),
* the JSON tree scanner (wa_extract_pool_rows) with its event and course
  classifiers (wa_guess_event_key, wa_is_lcm_50m),
* the best-time aggregators (wa_compute_pool_bests and the aggregation
  half of swimrankings_scrape_pool_bests),
* the probing fetch helpers (fetch_wa_profile, fetch_wa_pool_best_attempt),
  with the HTTP layer abstracted as an oracle from URL to optional payload
  (none stands for an exhausted retry budget / raised exception),
* the memoised SwimRankings scrape (cache dictionary plus a network-call
  counter), and the reference-date slice of main.

Python floats are modelled as rationals; JSON number literals as integers
(the payload fields the scanner consumes are strings).  Seconds values are
parsed from strings exactly as the source does, over the plain decimal
fragment of Python float().
-/

/-- Calendar date as used by Python datetime.date. -/
structure Date where
  year : Nat
  month : Nat
  day : Nat
deriving DecidableEq, Repr

/-- Python date comparison: lexicographic on (year, month, day). -/
def Date.le (a b : Date) : Bool :=
  decide (a.year < b.year) ||
    (a.year == b.year &&
      (decide (a.month < b.month) ||
        (a.month == b.month && decide (a.day ≤ b.day))))

/-- Gregorian leap-year test (as validated by datetime). -/
def isLeap (y : Nat) : Bool :=
  (y % 4 == 0 && y % 100 != 0) || y % 400 == 0

/-- Number of days in a month, for the calendar validation datetime performs. -/
def daysInMonth (y m : Nat) : Nat :=
  if m == 2 then (if isLeap y then 29 else 28)
  else if m == 4 || m == 6 || m == 9 || m == 11 then 30
  else 31

/-- Construct a date if the components are a valid Gregorian date
(datetime raises ValueError otherwise, which the parsers turn into None). -/
def mkValidDate (y m d : Nat) : Option Date :=
  if 1 ≤ y ∧ y ≤ 9999 ∧ 1 ≤ m ∧ m ≤ 12 ∧ 1 ≤ d ∧ d ≤ daysInMonth y m then
    some ⟨y, m, d⟩
  else none

/-- Numeric value of a digit string. -/
def digitsVal (cs : List Char) : Nat :=
  cs.foldl (fun a c => a * 10 + (c.toNat - 48)) 0

/-- All characters are ASCII digits. -/
def allDigits (cs : List Char) : Bool :=
  cs.all Char.isDigit

/-- A nonempty digit group of bounded width, as accepted by one strptime
field directive (%Y up to four digits, %m and %d up to two). -/
def okGroup (g : List Char) (maxLen : Nat) : Bool :=
  !g.isEmpty && allDigits g && decide (g.length ≤ maxLen)

/-- Lowercasing as Python str.lower (ASCII, via Char.toLower). -/
def strLower (s : String) : String := String.mk (s.toList.map Char.toLower)

/-- Python str.strip(): drop leading and trailing whitespace. -/
def pyStrip (s : String) : String :=
  String.mk (((s.toList.dropWhile Char.isWhitespace).reverse.dropWhile
    Char.isWhitespace).reverse)

/-- Python str.split on a single-character separator. -/
def splitChar : List Char → Char → List (List Char)
  | [], _ => [[]]
  | x :: rest, c =>
      if x == c then [] :: splitChar rest c
      else
        match splitChar rest c with
        | g :: gs => (x :: g) :: gs
        | [] => [[x]]

/-- The pattern occurs as a contiguous run of the haystack. -/
def hasInfix : List Char → List Char → Bool
  | hay, pat =>
    if pat.isPrefixOf hay then true
    else
      match hay with
      | [] => false
      | _ :: rest => hasInfix rest pat

/-- Python substring test (the in operator on str). -/
def strContains (hay pat : String) : Bool :=
  hasInfix hay.toList pat.toList

/-- Decimal fragment of Python float(str): optional sign, integer digits,
optional fractional digits, surrounding whitespace stripped.  Scientific
notation, inf/nan and digit underscores are not modelled (the payload time
fields the module parses never use them). -/
def pyFloat (s : String) : Option ℚ :=
  let cs := (pyStrip s).toList
  let signAndRest : ℚ × List Char :=
    match cs with
    | '+' :: rest => (1, rest)
    | '-' :: rest => (-1, rest)
    | _ => (1, cs)
  let sgn := signAndRest.1
  let body := signAndRest.2
  let ip := body.takeWhile Char.isDigit
  let rest := body.drop ip.length
  match rest with
  | [] => if ip.isEmpty then none else some (sgn * (digitsVal ip : ℚ))
  | '.' :: fp =>
      if allDigits fp && !(ip.isEmpty && fp.isEmpty) then
        some (sgn * ((digitsVal ip : ℚ) + (digitsVal fp : ℚ) / ((10 : ℚ) ^ fp.length)))
      else none
  | _ => none

/-- Models parse_iso_date: datetime.fromisoformat on the Z-stripped string
and the strptime(s[:10], Y-m-d) fallback agree on the calendar date they
produce, namely the first ten characters read as dash-separated
year-month-day groups (strptime tolerates unpadded month and day),
calendar-validated; the basic (dashless) ISO variants are not modelled. -/
def parse_iso_date (s : String) : Option Date :=
  if s = "" then none
  else
    match splitChar (s.toList.take 10) '-' with
    | [ys, ms, ds] =>
        if okGroup ys 4 && okGroup ms 2 && okGroup ds 2 then
          mkValidDate (digitsVal ys) (digitsVal ms) (digitsVal ds)
        else none
    | _ => none

/-- strptime with format Y-m-d over the whole string, calendar-validated. -/
def parseDashYMD (t : String) : Option Date :=
  match splitChar t.toList '-' with
  | [ys, ms, ds] =>
      if okGroup ys 4 && okGroup ms 2 && okGroup ds 2 then
        mkValidDate (digitsVal ys) (digitsVal ms) (digitsVal ds)
      else none
  | _ => none

/-- Models parse_sr_date: after stripping, try strptime d.m.Y, then Y-m-d. -/
def parse_sr_date (s : String) : Option Date :=
  if s = "" then none
  else
    let t := pyStrip s
    match splitChar t.toList '.' with
    | [ds, ms, ys] =>
        if okGroup ds 2 && okGroup ms 2 && okGroup ys 4 then
          match mkValidDate (digitsVal ys) (digitsVal ms) (digitsVal ds) with
          | some d => some d
          | none => parseDashYMD t
        else parseDashYMD t
    | _ => parseDashYMD t

/-- Prefix of the string up to (excluding) the first colon, and the rest
after it: Python t.split(":", 1). -/
def splitFirstColon (t : String) : String × String :=
  let cs := t.toList
  let pre := cs.takeWhile (· ≠ ':')
  (String.mk pre, String.mk (cs.drop (pre.length + 1)))

/-- Models wa_time_to_seconds: placeholder strings yield None, MM:SS.ff is
minutes times sixty plus the rest, otherwise a bare float parse. -/
def wa_time_to_seconds (t : String) : Option ℚ :=
  if t = "" then none
  else
    let t := pyStrip t
    if t = "" || t = "-" || t = "--" then none
    else if strContains t ":" then
      let mmRest := splitFirstColon t
      match pyFloat mmRest.1, pyFloat mmRest.2 with
      | some a, some b => some (a * 60 + b)
      | _, _ => none
    else pyFloat t

/-- Models sr_time_to_seconds: like wa_time_to_seconds but without the
dash-placeholder check. -/
def sr_time_to_seconds (t : String) : Option ℚ :=
  if t = "" then none
  else
    let t := pyStrip t
    if strContains t ":" then
      let mmRest := splitFirstColon t
      match pyFloat mmRest.1, pyFloat mmRest.2 with
      | some a, some b => some (a * 60 + b)
      | _, _ => none
    else pyFloat t

/-- JSON values as produced by requests .json().  Number literals are
modelled as integers: every payload field the scanner consumes is a string
in the upstream feeds, and Python float repr is outside the model. -/
inductive Json where
  | null : Json
  | bool (b : Bool) : Json
  | num (n : Int) : Json
  | str (s : String) : Json
  | arr (xs : List Json) : Json
  | obj (fields : List (String × Json)) : Json

/-- Python truthiness of a JSON value. -/
def Json.truthy : Json → Bool
  | .null => false
  | .bool b => b
  | .num n => n != 0
  | .str s => s ≠ ""
  | .arr xs => !xs.isEmpty
  | .obj fs => !fs.isEmpty

/-- Python dict.get on a JSON object: first binding for the key; a stored
JSON null is indistinguishable from an absent key (both give None). -/
def Json.get : Json → String → Option Json
  | .obj fs, k =>
      match fs.find? (fun kv => kv.1 == k) with
      | some kv => if kv.2 matches .null then none else some kv.2
      | none => none
  | _, _ => none

/-- Value of the Python expression x.get(k1) or x.get(k2) or ... :
the first truthy value, else the raw last value (None when absent). -/
def orChain (x : Json) : List String → Option Json
  | [] => none
  | [k] => x.get k
  | k :: ks =>
      match x.get k with
      | some v => if v.truthy then some v else orChain x ks
      | none => orChain x ks

mutual

/-- Python repr of a JSON value (string escaping inside repr not modelled). -/
def pyRepr : Json → String
  | .null => "None"
  | .bool true => "True"
  | .bool false => "False"
  | .num n => toString n
  | .str s => "\x27" ++ s ++ "\x27"
  | .arr xs => "[" ++ pyReprList xs ++ "]"
  | .obj fs => "\x7b" ++ pyReprFields fs ++ "\x7d"

def pyReprList : List Json → String
  | [] => ""
  | [x] => pyRepr x
  | x :: rest => pyRepr x ++ ", " ++ pyReprList rest

def pyReprFields : List (String × Json) → String
  | [] => ""
  | [kv] => "\x27" ++ kv.1 ++ "\x27: " ++ pyRepr kv.2
  | kv :: rest => "\x27" ++ kv.1 ++ "\x27: " ++ pyRepr kv.2 ++ ", " ++ pyReprFields rest

end

/-- Python str() of a JSON value. -/
def pyStr : Json → String
  | .str s => s
  | v => pyRepr v

/-- The target pool events (POOL_EVENTS in the source). -/
def POOL_EVENTS : List String := ["400 Free", "800 Free", "1500 Free"]

/-- Models wa_guess_event_key: freestyle hint plus first matching distance. -/
def wa_guess_event_key (label : String) : Option String :=
  if label = "" then none
  else
    let s := strLower label
    if !(strContains s "free" || strContains s "freestyle" || strContains s "fr") then none
    else if strContains s "400" then some "400 Free"
    else if strContains s "800" then some "800 Free"
    else if strContains s "1500" then some "1500 Free"
    else none

/-- The course-signal fields checked by wa_is_lcm_50m, in priority order. -/
def COURSE_KEYS : List String :=
  ["PoolLength", "Pool", "PoolSize", "PoolConfiguration", "Course", "CourseCode"]

/-- The per-key checks of wa_is_lcm_50m: acceptance patterns (exact value,
fifty without twenty-five, lcm or long) are tested before the short-course
rejection; a key with no matching pattern defers to the next key. -/
def courseScan (x : Json) : List String → Bool
  | [] => true
  | k :: ks =>
      match x.get k with
      | none => courseScan x ks
      | some v =>
          let s := strLower (pyStr v)
          if s = "lcm" || s = "50" || s = "50m" || s = "50 m" || s = "50-m" then true
          else if strContains s "50" && !strContains s "25" then true
          else if strContains s "lcm" || strContains s "long" then true
          else if strContains s "25" || strContains s "scm" then false
          else courseScan x ks

/-- Models wa_is_lcm_50m; with no course evidence at all the dict is
treated as acceptable (the source comment: many WA feeds omit course). -/
def wa_is_lcm_50m (x : Json) : Bool := courseScan x COURSE_KEYS

/-- Alias keys for the time-like field, in priority order. -/
def TIME_KEYS : List String := ["Time", "Result", "SwimTime", "Performance"]

/-- Alias keys for the date-like field, in priority order. -/
def DATE_KEYS : List String := ["Date", "StartDate", "CompetitionDate", "From"]

/-- Alias keys for the label-like field, in priority order. -/
def LABEL_KEYS : List String := ["DisciplineName", "EventName", "Name", "Event", "Discipline"]

/-- Container keys probed for a nested label sub-object. -/
def NESTED_LABEL_CONTAINERS : List String := ["Discipline", "Event", "Race", "Competition"]

/-- Label keys probed inside a nested container. -/
def NESTED_LABEL_KEYS : List String := ["DisciplineName", "EventName", "Name"]

/-- Secondary label sources: the first container key holding a dict whose
own label fields yield a recognized event. -/
def secondaryEventKey (x : Json) : List String → Option String
  | [] => none
  | k :: ks =>
      match x.get k with
      | some (Json.obj fs) =>
          let lbl2 := orChain (Json.obj fs) NESTED_LABEL_KEYS
          let lblText :=
            match lbl2 with
            | some v => if v.truthy then pyStr v else ""
            | none => ""
          match wa_guess_event_key lblText with
          | some ev => some ev
          | none => secondaryEventKey x ks
      | _ => secondaryEventKey x ks

/-- Meet name best-effort extraction (CompetitionName, Meet, Competition;
a dict is replaced by its Name). -/
def meetField (x : Json) : Option String :=
  let meet0 := orChain x ["CompetitionName", "Meet", "Competition"]
  let meet1 : Option Json :=
    match meet0 with
    | some (Json.obj fs) => (Json.obj fs).get "Name"
    | m => m
  meet1.map pyStr

/-- Location best-effort extraction (City, Location, Venue; a dict is
replaced by its Name or City). -/
def locationField (x : Json) : Option String :=
  let loc0 := orChain x ["City", "Location", "Venue"]
  let loc1 : Option Json :=
    match loc0 with
    | some (Json.obj fs) => orChain (Json.obj fs) ["Name", "City"]
    | m => m
  loc1.map pyStr

/-- One extracted candidate performance row. -/
structure PoolRow where
  event : String
  time : String
  seconds : Option ℚ
  date : Option Date
  meet : Option String
  location : Option String
deriving DecidableEq, Repr

/-- Truthiness of an optional Python value (None is falsy). -/
def truthyOpt (o : Option Json) : Bool :=
  match o with
  | some v => v.truthy
  | none => false

/-- str of the label chain value, the empty string for None. -/
def nodeLabel (labelVal : Option Json) : String :=
  match labelVal with
  | some v => pyStr v
  | none => ""

/-- The event key of a node: the direct label when it is recognized, else
the nested secondary label sources. -/
def nodeEventKey (x : Json) (label : String) : Option String :=
  match wa_guess_event_key label with
  | some ev => some ev
  | none => secondaryEventKey x NESTED_LABEL_CONTAINERS

/-- Date parse of the date chain value: only string values are parsed (a
datetime object cannot occur in a decoded JSON payload). -/
def nodeDateIso (dateVal : Option Json) : Option Date :=
  match dateVal with
  | some (Json.str s) => parse_iso_date s
  | _ => none

/-- The candidate logic applied at one dict node, over the already-chained
time, date and label values: a truthy time-like field plus a truthy date or
label field make the node a candidate; the row is retained when the event
label is recognized (directly or through a nested container), the date
field is a parseable string, and the course check passes. -/
def nodeRowCore (x : Json) (timeVal dateVal labelVal : Option Json) : Option PoolRow :=
  if truthyOpt timeVal && (truthyOpt dateVal || truthyOpt labelVal) then
    let tStr :=
      match timeVal with
      | some v => pyStr v
      | none => ""
    match nodeEventKey x (nodeLabel labelVal), nodeDateIso dateVal with
    | some ev, some d =>
        if wa_is_lcm_50m x then
          some ⟨ev, tStr, wa_time_to_seconds tStr, some d, meetField x, locationField x⟩
        else none
    | _, _ => none
  else none

/-- The candidate logic at a node: chain the alias keys, then decide. -/
def nodeRow (x : Json) : Option PoolRow :=
  nodeRowCore x (orChain x TIME_KEYS) (orChain x DATE_KEYS) (orChain x LABEL_KEYS)

mutual

/-- Recursive visitor of wa_extract_pool_rows: at each object node append
the candidate row of the node itself (if any), then recurse into the values
in order; arrays recurse elementwise; leaves contribute nothing. -/
def visitJson : Json → List PoolRow
  | .obj fs =>
      (match nodeRow (.obj fs) with
       | some r => [r]
       | none => []) ++ visitFields fs
  | .arr xs => visitList xs
  | _ => []

def visitFields : List (String × Json) → List PoolRow
  | [] => []
  | kv :: rest => visitJson kv.2 ++ visitFields rest

def visitList : List Json → List PoolRow
  | [] => []
  | v :: rest => visitJson v ++ visitList rest

end

/-- Models wa_extract_pool_rows. -/
def wa_extract_pool_rows (js : Json) : List PoolRow := visitJson js

/-- Python min(xs, key=f): the first element attaining the minimal key
(the running best is replaced only on a strictly smaller key). -/
def minBy {α : Type} (key : α → ℚ) : List α → Option α
  | [] => none
  | x :: xs => some (xs.foldl (fun best y => if key y < key best then y else best) x)

/-- The seconds of a row, as used for the minimum selection; the default is
never read because every filtered row carries a parsed seconds value. -/
def secKey (r : PoolRow) : ℚ := r.seconds.getD 0

/-- The PersonalBest-qualifying subset for one event: same event, parsed
seconds, a date, and date at most the reference date. -/
def wa_qualifying (rows : List PoolRow) (ev : String) (owDate : Date) : List PoolRow :=
  rows.filter (fun r =>
    r.event == ev && r.seconds.isSome && r.date.isSome && Date.le (r.date.getD ⟨0, 0, 0⟩) owDate)

/-- The SeasonBest subset: qualifying rows whose year is the reference year. -/
def wa_ytd (rows : List PoolRow) (ev : String) (owDate : Date) : List PoolRow :=
  (wa_qualifying rows ev owDate).filter (fun r =>
    r.date.isSome && (r.date.getD ⟨0, 0, 0⟩).year == owDate.year)

/-- Per-event outcome of an aggregator: the selected rows whose fields
populate the pb_upto / sb_ytd entries of the output dict. -/
structure EventBests (α : Type) where
  pb : Option α
  sb : Option α
deriving DecidableEq, Repr

/-- One event of wa_compute_pool_bests: no qualifying row means neither
record; otherwise the minimal-seconds qualifying row is the PB and the
minimal-seconds year-restricted row (when any) is the SB. -/
def wa_compute_event_bests (rows : List PoolRow) (owDate : Date) (ev : String) :
    EventBests PoolRow :=
  match minBy secKey (wa_qualifying rows ev owDate) with
  | none => ⟨none, none⟩
  | some bestPb => ⟨some bestPb, minBy secKey (wa_ytd rows ev owDate)⟩

/-- Models wa_compute_pool_bests. -/
def wa_compute_pool_bests (rows : List PoolRow) (owDate : Date) :
    List (String × EventBests PoolRow) :=
  POOL_EVENTS.map (fun ev => (ev, wa_compute_event_bests rows owDate ev))

/-- One SwimRankings candidate row (date always present by construction). -/
structure SRRow where
  event : String
  time : String
  seconds : Option ℚ
  date : Date
  meet : Option String
  location : Option String
deriving DecidableEq, Repr

/-- Full match of the time-token regexes of the scrape: one or two digits,
colon, exactly two digits, dot, one or two fractional digits (the first
source pattern, with exactly two fractional digits, is subsumed by the
second). -/
def isTimeToken (s : String) : Bool :=
  let cs := s.toList
  let d1 := cs.takeWhile Char.isDigit
  let rest := cs.drop d1.length
  (d1.length == 1 || d1.length == 2) &&
    (match rest with
     | ':' :: c1 :: c2 :: '.' :: fr =>
         c1.isDigit && c2.isDigit && allDigits fr && (fr.length == 1 || fr.length == 2)
     | _ => false)

/-- Full match of the date-token regex of the scrape: dd.mm.yyyy. -/
def isDateToken (s : String) : Bool :=
  match s.toList with
  | [a, b, p, c, d, q, e, f, g, h] =>
      a.isDigit && b.isDigit && p == '.' && c.isDigit && d.isDigit && q == '.' &&
        e.isDigit && f.isDigit && g.isDigit && h.isDigit
  | _ => false

/-- The per-row logic of the SwimRankings scrape: the cell texts of one
table row yield at most one candidate.  Short rows, rows without a target
distance plus freestyle hint, rows without a time or date token, rows whose
assembled text shows scm or 25m, and rows whose first cell names no target
distance all contribute nothing. -/
def srRowCandidate (tds : List String) : Option SRRow :=
  if tds.length < 4 then none
  else
    let rowText := strLower (String.intercalate " | " tds)
    let isTarget := ["400", "800", "1500"].any (fun dist =>
      strContains rowText dist &&
        (strContains rowText "free" || strContains rowText "freestyle" ||
          strContains rowText "fr"))
    if !isTarget then none
    else
      match tds.find? isTimeToken with
      | none => none
      | some timeToken =>
          match tds.find? isDateToken with
          | none => none
          | some dateToken =>
              match parse_sr_date dateToken with
              | none => none
              | some d =>
                  if strContains rowText "scm" || strContains rowText "25m" then none
                  else
                    let eventLabelLow := strLower (tds.headD "")
                    let eventKey :=
                      if strContains eventLabelLow "400" then some "400 Free"
                      else if strContains eventLabelLow "800" then some "800 Free"
                      else if strContains eventLabelLow "1500" then some "1500 Free"
                      else none
                    match eventKey with
                    | none => none
                    | some ev =>
                        some ⟨ev, timeToken, sr_time_to_seconds timeToken, d,
                          tds.get? 2, tds.get? 3⟩

/-- Candidate extraction over all table rows, in document order. -/
def srExtractCandidates (trs : List (List String)) : List SRRow :=
  trs.filterMap srRowCandidate

/-- Seconds of a SwimRankings row for the minimum selection; the default is
never read on filtered rows. -/
def srSecKey (r : SRRow) : ℚ := r.seconds.getD 0

/-- The SwimRankings PB-qualifying subset for one event. -/
def sr_qualifying (cands : List SRRow) (ev : String) (owDate : Date) : List SRRow :=
  cands.filter (fun r => r.event == ev && r.seconds.isSome && Date.le r.date owDate)

/-- The SwimRankings SB subset: qualifying rows of the reference year. -/
def sr_ytd (cands : List SRRow) (ev : String) (owDate : Date) : List SRRow :=
  (sr_qualifying cands ev owDate).filter (fun r => r.date.year == owDate.year)

/-- One event of the aggregation half of swimrankings_scrape_pool_bests. -/
def sr_compute_event_bests (cands : List SRRow) (owDate : Date) (ev : String) :
    EventBests SRRow :=
  match minBy srSecKey (sr_qualifying cands ev owDate) with
  | none => ⟨none, none⟩
  | some bestPb => ⟨some bestPb, minBy srSecKey (sr_ytd cands ev owDate)⟩

/-- The aggregation half of swimrankings_scrape_pool_bests. -/
def sr_compute_bests (cands : List SRRow) (owDate : Date) :
    List (String × EventBests SRRow) :=
  POOL_EVENTS.map (fun ev => (ev, sr_compute_event_bests cands owDate ev))

/-- Two-digit zero padding (datetime.isoformat). -/
def pad2 (n : Nat) : String :=
  if n < 10 then "0" ++ toString n else toString n

/-- Four-digit zero padding (datetime.isoformat). -/
def pad4 (n : Nat) : String :=
  if n < 10 then "000" ++ toString n
  else if n < 100 then "00" ++ toString n
  else if n < 1000 then "0" ++ toString n
  else toString n

/-- Python date.isoformat(): YYYY-MM-DD. -/
def Date.isoformat (d : Date) : String :=
  pad4 d.year ++ "-" ++ pad2 d.month ++ "-" ++ pad2 d.day

/-- Process-wide state touched by swimrankings_scrape_pool_bests: the
_SB_YTD_CACHE dictionary plus a count of the network fetches performed. -/
structure ScrapeState where
  cache : List ((Nat × Nat × String) × List (String × EventBests SRRow))
  netCalls : Nat

/-- Models swimrankings_scrape_pool_bests.  The HTTP fetch plus the
BeautifulSoup row splitting (http_get_text and soup.find_all) is abstracted
as fetchPage, giving the cell texts of each table row of the athlete page;
one invocation is one network fetch.  On a cache hit the stored mapping is
returned with no fetch; on a miss the page is fetched, candidates are
extracted, bests are computed and stored under the key
(athleteId, year of the reference date, isoformat of the reference date).
There is no TTL: an entry, once written, never expires. -/
def swimrankings_scrape_pool_bests (fetchPage : Nat → List (List String))
    (athleteId : Nat) (owDate : Date) (st : ScrapeState) :
    List (String × EventBests SRRow) × ScrapeState :=
  let key := (athleteId, owDate.year, owDate.isoformat)
  match st.cache.find? (fun kv => kv.1 == key) with
  | some kv => (kv.2, st)
  | none =>
      let trs := fetchPage athleteId
      let out := sr_compute_bests (srExtractCandidates trs) owDate
      (out, ⟨(key, out) :: st.cache, st.netCalls + 1⟩)

/-- Base URL of the World Aquatics API. -/
def FINA_BASE : String := "https://api.worldaquatics.com/fina"

/-- The candidate profile endpoints of fetch_wa_profile, in order. -/
def wa_profile_candidates (waId : String) : List String :=
  ["persons", "person", "athletes", "athlete",
   "competitors", "competitor", "profiles", "profile"].map
    (fun seg => FINA_BASE ++ "/" ++ seg ++ "/" ++ waId)

/-- The probe loop of fetch_wa_profile: the first response that is a
non-empty JSON dict is returned; exceptions (none) and every other payload
shape continue to the next endpoint. -/
def profileProbe (http : String → Option Json) : List String → Json
  | [] => Json.obj []
  | url :: rest =>
      match http url with
      | some (Json.obj fs) => if fs.isEmpty then profileProbe http rest else Json.obj fs
      | _ => profileProbe http rest

/-- Models fetch_wa_profile.  http abstracts http_get_json on one candidate
URL, its single-retry budget included: none is a RuntimeError after the
retries; the empty dict models the Python literal returned for no data. -/
def fetch_wa_profile (http : String → Option Json) (waId : String) : Json :=
  if waId = "" then Json.obj []
  else profileProbe http (wa_profile_candidates waId)

/-- The candidate results endpoints of fetch_wa_pool_best_attempt. -/
def wa_pool_candidates (waId : String) : List String :=
  ["persons", "person", "athletes", "athlete"].map
    (fun seg => FINA_BASE ++ "/" ++ seg ++ "/" ++ waId ++ "/results")

/-- The probe loop of fetch_wa_pool_best_attempt: exceptions and falsy
payloads continue to the next endpoint; the first truthy payload is final,
either returning the empty mapping at once when its extracted rows are
empty, or the computed bests.  The debug dump of the raw payload is file
I/O with no bearing on the result and is not modelled. -/
def poolProbe (http : String → Option Json) (owDate : Date) :
    List String → List (String × EventBests PoolRow)
  | [] => []
  | url :: rest =>
      match http url with
      | none => poolProbe http owDate rest
      | some js =>
          if !js.truthy then poolProbe http owDate rest
          else
            match wa_extract_pool_rows js with
            | [] => []
            | rows => wa_compute_pool_bests rows owDate

/-- Models fetch_wa_pool_best_attempt. -/
def fetch_wa_pool_best_attempt (http : String → Option Json) (waId : String)
    (owDate : Date) : List (String × EventBests PoolRow) :=
  if waId = "" then []
  else poolProbe http owDate (wa_pool_candidates waId)

/-- The reference-date determination of main: competition To, else From
(Python comp_to or comp_from; a date object is always truthy). -/
def ow_date_of (compTo compFrom : Option Date) : Option Date :=
  match compTo with
  | some d => some d
  | none => compFrom

/-- The race-processing slice of main: with no picked events, or with no
determinable reference date, main logs an error and returns before the
race loop, producing no rows at all; otherwise every picked race is
processed with the single competition-level reference date.  The per-race
athlete pipeline (the loop body over one race) is abstracted as
processRace. -/
def main_rows {α : Type} (compTo compFrom : Option Date) (picked : List String)
    (processRace : String → Date → List α) : List α :=
  if picked.isEmpty then []
  else
    match ow_date_of compTo compFrom with
    | none => []
    | some d => picked.flatMap (fun ev => processRace ev d)


/-- The running fold inside minBy is bounded by the seed and by every
element, and is either the seed or a fold element strictly below the seed
and everything before it. -/
theorem foldl_min_spec {α : Type} (key : α → ℚ) :
    ∀ (xs : List α) (b r : α),
      xs.foldl (fun best y => if key y < key best then y else best) b = r →
      (key r ≤ key b ∧ ∀ y ∈ xs, key r ≤ key y) ∧
      (r = b ∨ ∃ l1 l2, xs = l1 ++ r :: l2 ∧ key r < key b ∧ ∀ z ∈ l1, key r < key z) := by
  intro xs
  induction xs with
  | nil =>
      intro b r hr
      simp only [List.foldl_nil] at hr
      subst hr
      refine ⟨⟨le_refl _, ?_⟩, Or.inl rfl⟩
      intro y hy
      simp at hy
  | cons y ys ih =>
      intro b r hr
      simp only [List.foldl_cons] at hr
      by_cases hlt : key y < key b
      · rw [if_pos hlt] at hr
        obtain ⟨⟨h1, h2⟩, h3⟩ := ih y r hr
        refine ⟨⟨le_of_lt (lt_of_le_of_lt h1 hlt), ?_⟩, ?_⟩
        · intro z hz
          rcases List.mem_cons.mp hz with hz | hz
          · exact hz ▸ h1
          · exact h2 z hz
        · rcases h3 with h3 | ⟨l1, l2, hsplit, hkb, hpre⟩
          · subst h3
            refine Or.inr ⟨[], ys, by simp, hlt, ?_⟩
            intro z hz
            simp at hz
          · refine Or.inr ⟨y :: l1, l2, by simp [hsplit], lt_trans hkb hlt, ?_⟩
            intro z hz
            rcases List.mem_cons.mp hz with hz | hz
            · exact hz ▸ hkb
            · exact hpre z hz
      · rw [if_neg hlt] at hr
        push_neg at hlt
        obtain ⟨⟨h1, h2⟩, h3⟩ := ih b r hr
        refine ⟨⟨h1, ?_⟩, ?_⟩
        · intro z hz
          rcases List.mem_cons.mp hz with hz | hz
          · exact hz ▸ le_trans h1 hlt
          · exact h2 z hz
        · rcases h3 with h3 | ⟨l1, l2, hsplit, hkb, hpre⟩
          · exact Or.inl h3
          · refine Or.inr ⟨y :: l1, l2, by simp [hsplit], hkb, ?_⟩
            intro z hz
            rcases List.mem_cons.mp hz with hz | hz
            · exact hz ▸ lt_of_lt_of_le hkb hlt
            · exact hpre z hz

/-- minBy returns none exactly on the empty list. -/
theorem minBy_eq_none {α : Type} (key : α → ℚ) (l : List α) :
    minBy key l = none ↔ l = [] := by
  cases l <;> simp [minBy]

/-- A minBy result splits the list into a strictly-greater prefix, the
result itself, and a tail, and is a lower bound of the whole list: it is
the first element attaining the minimum key. -/
theorem minBy_spec {α : Type} (key : α → ℚ) (l : List α) (r : α)
    (h : minBy key l = some r) :
    (∃ l1 l2, l = l1 ++ r :: l2 ∧ ∀ z ∈ l1, key r < key z) ∧
      (∀ x ∈ l, key r ≤ key x) := by
  cases l with
  | nil => simp [minBy] at h
  | cons x xs =>
      simp only [minBy, Option.some.injEq] at h
      obtain ⟨⟨h1, h2⟩, h3⟩ := foldl_min_spec key xs x _ h
      constructor
      · rcases h3 with h3 | ⟨l1, l2, hsplit, hkb, hpre⟩
        · subst h3
          refine ⟨[], xs, by simp, ?_⟩
          intro z hz
          simp at hz
        · refine ⟨x :: l1, l2, by simp [hsplit], ?_⟩
          intro z hz
          rcases List.mem_cons.mp hz with hz | hz
          · exact hz ▸ hkb
          · exact hpre z hz
      · intro z hz
        rcases List.mem_cons.mp hz with hz | hz
        · exact hz ▸ h1
        · exact h2 z hz

/-- A minBy result is a member of the list. -/
theorem minBy_mem {α : Type} (key : α → ℚ) (l : List α) (r : α)
    (h : minBy key l = some r) : r ∈ l := by
  obtain ⟨⟨l1, l2, hsplit, _⟩, _⟩ := minBy_spec key l r h
  rw [hsplit]
  simp

/-- Membership in the per-event output of an aggregator determines the
record from the event. -/
theorem mem_map_pair {β : Type} (f : String → β) (evs : List String) (ev : String) (b : β)
    (h : (ev, b) ∈ evs.map (fun e => (e, f e))) : b = f ev := by
  obtain ⟨e, _, heq⟩ := List.mem_map.mp h
  obtain ⟨h1, h2⟩ := Prod.mk.injEq .. ▸ heq
  exact h1 ▸ h2.symm

/-- Facts granted by membership in the WA qualifying subset. -/
theorem wa_qualifying_facts (rows : List PoolRow) (ev : String) (owDate : Date)
    (r : PoolRow) (h : r ∈ wa_qualifying rows ev owDate) :
    r ∈ rows ∧ r.event = ev ∧ r.seconds.isSome = true ∧
      ∃ d, r.date = some d ∧ Date.le d owDate = true := by
  rw [wa_qualifying, List.mem_filter] at h
  obtain ⟨hmem, hp⟩ := h
  simp only [Bool.and_eq_true, beq_iff_eq] at hp
  obtain ⟨⟨⟨hev, hsec⟩, hdate⟩, hle⟩ := hp
  refine ⟨hmem, hev, hsec, ?_⟩
  cases hd : r.date with
  | none => rw [hd] at hdate; simp at hdate
  | some d =>
      refine ⟨d, rfl, ?_⟩
      rw [hd] at hle
      simpa using hle

/-- Facts granted by membership in the SwimRankings qualifying subset. -/
theorem sr_qualifying_facts (cands : List SRRow) (ev : String) (owDate : Date)
    (r : SRRow) (h : r ∈ sr_qualifying cands ev owDate) :
    r ∈ cands ∧ r.event = ev ∧ r.seconds.isSome = true ∧ Date.le r.date owDate = true := by
  rw [sr_qualifying, List.mem_filter] at h
  obtain ⟨hmem, hp⟩ := h
  simp only [Bool.and_eq_true, beq_iff_eq] at hp
  exact ⟨hmem, hp.1.1, hp.1.2, hp.2⟩

/-- On a row with parsed seconds the selection key is that value. -/
theorem secKey_eq (r : PoolRow) (q : ℚ) (h : r.seconds = some q) : secKey r = q := by
  simp [secKey, h]

/-- On a SwimRankings row with parsed seconds the selection key is that value. -/
theorem srSecKey_eq (r : SRRow) (q : ℚ) (h : r.seconds = some q) : srSecKey r = q := by
  simp [srSecKey, h]

/-- C1: every PersonalBest record produced by either aggregator belongs to
the qualifying subset of its event (so its date is at most the reference
date) and its seconds value is the minimum seconds over that subset; when
the qualifying subset is empty, no PersonalBest record is produced. -/
theorem c1_personal_best_minimal :
    (∀ (rows : List PoolRow) (owDate : Date) (ev : String) (b : EventBests PoolRow),
        (ev, b) ∈ wa_compute_pool_bests rows owDate →
        (∀ r, b.pb = some r →
            r ∈ wa_qualifying rows ev owDate ∧
            (∃ d, r.date = some d ∧ Date.le d owDate = true) ∧
            (∀ r2 ∈ wa_qualifying rows ev owDate, ∀ q q2,
                r.seconds = some q → r2.seconds = some q2 → q ≤ q2)) ∧
        (wa_qualifying rows ev owDate = [] → b.pb = none)) ∧
    (∀ (cands : List SRRow) (owDate : Date) (ev : String) (b : EventBests SRRow),
        (ev, b) ∈ sr_compute_bests cands owDate →
        (∀ r, b.pb = some r →
            r ∈ sr_qualifying cands ev owDate ∧
            Date.le r.date owDate = true ∧
            (∀ r2 ∈ sr_qualifying cands ev owDate, ∀ q q2,
                r.seconds = some q → r2.seconds = some q2 → q ≤ q2)) ∧
        (sr_qualifying cands ev owDate = [] → b.pb = none)) := by
  constructor
  · intro rows owDate ev b hmem
    have hb : b = wa_compute_event_bests rows owDate ev :=
      mem_map_pair (wa_compute_event_bests rows owDate) POOL_EVENTS ev b hmem
    cases hq : minBy secKey (wa_qualifying rows ev owDate) with
    | none =>
        rw [wa_compute_event_bests, hq] at hb
        subst hb
        exact ⟨fun r hr => by simp at hr, fun _ => rfl⟩
    | some bp =>
        rw [wa_compute_event_bests, hq] at hb
        subst hb
        constructor
        · intro r hr
          simp only [Option.some.injEq] at hr
          subst hr
          have hspec := minBy_spec secKey _ _ hq
          have hmemq := minBy_mem secKey _ _ hq
          have hfacts := wa_qualifying_facts rows ev owDate bp hmemq
          refine ⟨hmemq, hfacts.2.2.2, ?_⟩
          intro r2 hr2 q q2 hq1 hq2
          have := hspec.2 r2 hr2
          rw [secKey_eq bp q hq1, secKey_eq r2 q2 hq2] at this
          exact this
        · intro hempty
          rw [hempty] at hq
          simp [minBy] at hq
  · intro cands owDate ev b hmem
    have hb : b = sr_compute_event_bests cands owDate ev :=
      mem_map_pair (sr_compute_event_bests cands owDate) POOL_EVENTS ev b hmem
    cases hq : minBy srSecKey (sr_qualifying cands ev owDate) with
    | none =>
        rw [sr_compute_event_bests, hq] at hb
        subst hb
        exact ⟨fun r hr => by simp at hr, fun _ => rfl⟩
    | some bp =>
        rw [sr_compute_event_bests, hq] at hb
        subst hb
        constructor
        · intro r hr
          simp only [Option.some.injEq] at hr
          subst hr
          have hspec := minBy_spec srSecKey _ _ hq
          have hmemq := minBy_mem srSecKey _ _ hq
          have hfacts := sr_qualifying_facts cands ev owDate bp hmemq
          refine ⟨hmemq, hfacts.2.2.2, ?_⟩
          intro r2 hr2 q q2 hq1 hq2
          have := hspec.2 r2 hr2
          rw [srSecKey_eq bp q hq1, srSecKey_eq r2 q2 hq2] at this
          exact this
        · intro hempty
          rw [hempty] at hq
          simp [minBy] at hq

/-- Reference date of the concrete scenarios (the open-water race date). -/
def DEMO_DATE : Date := ⟨2025, 8, 1⟩

/-- A 400 Free candidate in the reference year. -/
def demoRowA : PoolRow := ⟨"400 Free", "3:50.00", some 230, some ⟨2025, 3, 1⟩, none, none⟩

/-- A faster 400 Free candidate in the previous year. -/
def demoRowB : PoolRow := ⟨"400 Free", "3:45.00", some 225, some ⟨2024, 7, 1⟩, none, none⟩

/-- Witness for c1_personal_best_minimal at the concrete scenario: the
previous-year 225-second row is selected as PB and lies in the qualifying
subset. -/
theorem c1_personal_best_minimal_witness :
    (("400 Free", EventBests.mk (some demoRowB) (some demoRowA)) ∈
        wa_compute_pool_bests [demoRowA, demoRowB] DEMO_DATE) ∧
      demoRowB ∈ wa_qualifying [demoRowA, demoRowB] "400 Free" DEMO_DATE := by
  have h := c1_personal_best_minimal.1 [demoRowA, demoRowB] DEMO_DATE "400 Free"
    ⟨some demoRowB, some demoRowA⟩ (by decide)
  exact ⟨by decide, (h.1 demoRowB rfl).1⟩

/-- Facts granted by membership in the WA season subset. -/
theorem wa_ytd_facts (rows : List PoolRow) (ev : String) (owDate : Date)
    (r : PoolRow) (h : r ∈ wa_ytd rows ev owDate) :
    r ∈ wa_qualifying rows ev owDate ∧ ∃ d, r.date = some d ∧ d.year = owDate.year := by
  rw [wa_ytd, List.mem_filter] at h
  obtain ⟨hmem, hp⟩ := h
  simp only [Bool.and_eq_true] at hp
  refine ⟨hmem, ?_⟩
  cases hd : r.date with
  | none => rw [hd] at hp; simp at hp
  | some d =>
      refine ⟨d, rfl, ?_⟩
      rw [hd] at hp
      simpa using hp.2

/-- Facts granted by membership in the SwimRankings season subset. -/
theorem sr_ytd_facts (cands : List SRRow) (ev : String) (owDate : Date)
    (r : SRRow) (h : r ∈ sr_ytd cands ev owDate) :
    r ∈ sr_qualifying cands ev owDate ∧ r.date.year = owDate.year := by
  rw [sr_ytd, List.mem_filter] at h
  obtain ⟨hmem, hp⟩ := h
  exact ⟨hmem, by simpa using hp⟩

/-- C2: the SeasonBest record of either aggregator is the minimum-seconds
row of the year-restricted subset of the qualifying rows; that subset is
always contained in the PersonalBest subset, so whenever both records exist
the SB seconds are at least the PB seconds; and the SB is independently
absent whenever its subset is empty, even if a PB exists. -/
theorem c2_season_best_subset :
    (∀ (rows : List PoolRow) (owDate : Date) (ev : String) (b : EventBests PoolRow),
        (ev, b) ∈ wa_compute_pool_bests rows owDate →
        (∀ r ∈ wa_ytd rows ev owDate, r ∈ wa_qualifying rows ev owDate) ∧
        (∀ s, b.sb = some s →
            s ∈ wa_ytd rows ev owDate ∧
            (∃ d, s.date = some d ∧ d.year = owDate.year) ∧
            (∀ r2 ∈ wa_ytd rows ev owDate, ∀ q q2,
                s.seconds = some q → r2.seconds = some q2 → q ≤ q2)) ∧
        (∀ p s qp qs, b.pb = some p → b.sb = some s →
            p.seconds = some qp → s.seconds = some qs → qp ≤ qs) ∧
        (wa_ytd rows ev owDate = [] → b.sb = none)) ∧
    (∀ (cands : List SRRow) (owDate : Date) (ev : String) (b : EventBests SRRow),
        (ev, b) ∈ sr_compute_bests cands owDate →
        (∀ r ∈ sr_ytd cands ev owDate, r ∈ sr_qualifying cands ev owDate) ∧
        (∀ s, b.sb = some s →
            s ∈ sr_ytd cands ev owDate ∧
            s.date.year = owDate.year ∧
            (∀ r2 ∈ sr_ytd cands ev owDate, ∀ q q2,
                s.seconds = some q → r2.seconds = some q2 → q ≤ q2)) ∧
        (∀ p s qp qs, b.pb = some p → b.sb = some s →
            p.seconds = some qp → s.seconds = some qs → qp ≤ qs) ∧
        (sr_ytd cands ev owDate = [] → b.sb = none)) := by
  constructor
  · intro rows owDate ev b hmem
    have hb : b = wa_compute_event_bests rows owDate ev :=
      mem_map_pair (wa_compute_event_bests rows owDate) POOL_EVENTS ev b hmem
    have hsubset : ∀ r ∈ wa_ytd rows ev owDate, r ∈ wa_qualifying rows ev owDate :=
      fun r hr => (wa_ytd_facts rows ev owDate r hr).1
    cases hq : minBy secKey (wa_qualifying rows ev owDate) with
    | none =>
        rw [wa_compute_event_bests, hq] at hb
        subst hb
        exact ⟨hsubset, fun s hs => by simp at hs, fun p s qp qs hp => by simp at hp,
          fun _ => rfl⟩
    | some bp =>
        rw [wa_compute_event_bests, hq] at hb
        subst hb
        refine ⟨hsubset, ?_, ?_, ?_⟩
        · intro s hs
          simp only at hs
          have hspec := minBy_spec secKey _ _ hs
          have hmemy := minBy_mem secKey _ _ hs
          refine ⟨hmemy, (wa_ytd_facts rows ev owDate s hmemy).2, ?_⟩
          intro r2 hr2 q q2 hq1 hq2
          have := hspec.2 r2 hr2
          rw [secKey_eq s q hq1, secKey_eq r2 q2 hq2] at this
          exact this
        · intro p s qp qs hp hs hqp hqs
          simp only [Option.some.injEq] at hp
          subst hp
          simp only at hs
          have hmemy := minBy_mem secKey _ _ hs
          have hmemq := hsubset s hmemy
          have hspec := minBy_spec secKey _ _ hq
          have := hspec.2 s hmemq
          rw [secKey_eq bp qp hqp, secKey_eq s qs hqs] at this
          exact this
        · intro hempty
          simp only
          rw [hempty]
          simp [minBy]
  · intro cands owDate ev b hmem
    have hb : b = sr_compute_event_bests cands owDate ev :=
      mem_map_pair (sr_compute_event_bests cands owDate) POOL_EVENTS ev b hmem
    have hsubset : ∀ r ∈ sr_ytd cands ev owDate, r ∈ sr_qualifying cands ev owDate :=
      fun r hr => (sr_ytd_facts cands ev owDate r hr).1
    cases hq : minBy srSecKey (sr_qualifying cands ev owDate) with
    | none =>
        rw [sr_compute_event_bests, hq] at hb
        subst hb
        exact ⟨hsubset, fun s hs => by simp at hs, fun p s qp qs hp => by simp at hp,
          fun _ => rfl⟩
    | some bp =>
        rw [sr_compute_event_bests, hq] at hb
        subst hb
        refine ⟨hsubset, ?_, ?_, ?_⟩
        · intro s hs
          simp only at hs
          have hspec := minBy_spec srSecKey _ _ hs
          have hmemy := minBy_mem srSecKey _ _ hs
          refine ⟨hmemy, (sr_ytd_facts cands ev owDate s hmemy).2, ?_⟩
          intro r2 hr2 q q2 hq1 hq2
          have := hspec.2 r2 hr2
          rw [srSecKey_eq s q hq1, srSecKey_eq r2 q2 hq2] at this
          exact this
        · intro p s qp qs hp hs hqp hqs
          simp only [Option.some.injEq] at hp
          subst hp
          simp only at hs
          have hmemy := minBy_mem srSecKey _ _ hs
          have hmemq := hsubset s hmemy
          have hspec := minBy_spec srSecKey _ _ hq
          have := hspec.2 s hmemq
          rw [srSecKey_eq bp qp hqp, srSecKey_eq s qs hqs] at this
          exact this
        · intro hempty
          simp only
          rw [hempty]
          simp [minBy]

/-- Witness for c2_season_best_subset at the concrete scenario: PB is the
225-second row of the previous year, SB the 230-second row of the
reference year, and 225 is at most 230. -/
theorem c2_season_best_subset_witness :
    (("400 Free", EventBests.mk (some demoRowB) (some demoRowA)) ∈
        wa_compute_pool_bests [demoRowA, demoRowB] DEMO_DATE) ∧ (225 : ℚ) ≤ 230 := by
  have h := c2_season_best_subset.1 [demoRowA, demoRowB] DEMO_DATE "400 Free"
    ⟨some demoRowB, some demoRowA⟩ (by decide)
  exact ⟨by decide, h.2.2.1 demoRowB demoRowA 225 230 rfl rfl rfl rfl⟩

/-- A 400 Free candidate with the tied minimal time, later date, listed
first. -/
def tieRowLate : PoolRow := ⟨"400 Free", "3:50.00", some 230, some ⟨2025, 7, 1⟩, none, none⟩

/-- A 400 Free candidate with the same seconds but the earlier date, listed
second. -/
def tieRowEarly : PoolRow := ⟨"400 Free", "3:50.00", some 230, some ⟨2025, 3, 1⟩, none, none⟩

/-- C3 counterexample: two qualifying candidates of one event carry equal
minimal seconds and different dates; the aggregator selects the
first-encountered row, whose date is the later one, refuting the
earliest-date-first tie-break policy. -/
theorem c3_tie_break_counterexample :
    wa_compute_pool_bests [tieRowLate, tieRowEarly] DEMO_DATE =
      [("400 Free", ⟨some tieRowLate, some tieRowLate⟩),
       ("800 Free", ⟨none, none⟩), ("1500 Free", ⟨none, none⟩)] ∧
    tieRowEarly ∈ wa_qualifying [tieRowLate, tieRowEarly] "400 Free" DEMO_DATE ∧
    tieRowEarly.seconds = tieRowLate.seconds ∧
    tieRowEarly.date = some ⟨2025, 3, 1⟩ ∧ tieRowLate.date = some ⟨2025, 7, 1⟩ ∧
    Date.le ⟨2025, 3, 1⟩ ⟨2025, 7, 1⟩ = true ∧ ¬ (⟨2025, 3, 1⟩ : Date) = ⟨2025, 7, 1⟩ := by
  refine ⟨?_, by decide, by decide, by decide, by decide, by decide, by decide⟩
  decide

/-- C3 amended: tie-breaking among equal-seconds candidates is
deterministic, but by encounter order rather than date: the selected PB and
SB rows are the first rows of their subsets attaining the minimal seconds,
every earlier row of the subset having strictly greater seconds; the date
plays no role in the selection. -/
theorem c3_tie_break_first_encountered :
    (∀ (rows : List PoolRow) (owDate : Date) (ev : String) (b : EventBests PoolRow),
        (ev, b) ∈ wa_compute_pool_bests rows owDate →
        (∀ r, b.pb = some r → ∃ l1 l2,
            wa_qualifying rows ev owDate = l1 ++ r :: l2 ∧
              ∀ z ∈ l1, secKey r < secKey z) ∧
        (∀ s, b.sb = some s → ∃ l1 l2,
            wa_ytd rows ev owDate = l1 ++ s :: l2 ∧
              ∀ z ∈ l1, secKey s < secKey z)) ∧
    (∀ (cands : List SRRow) (owDate : Date) (ev : String) (b : EventBests SRRow),
        (ev, b) ∈ sr_compute_bests cands owDate →
        (∀ r, b.pb = some r → ∃ l1 l2,
            sr_qualifying cands ev owDate = l1 ++ r :: l2 ∧
              ∀ z ∈ l1, srSecKey r < srSecKey z) ∧
        (∀ s, b.sb = some s → ∃ l1 l2,
            sr_ytd cands ev owDate = l1 ++ s :: l2 ∧
              ∀ z ∈ l1, srSecKey s < srSecKey z)) := by
  constructor
  · intro rows owDate ev b hmem
    have hb : b = wa_compute_event_bests rows owDate ev :=
      mem_map_pair (wa_compute_event_bests rows owDate) POOL_EVENTS ev b hmem
    cases hq : minBy secKey (wa_qualifying rows ev owDate) with
    | none =>
        rw [wa_compute_event_bests, hq] at hb
        subst hb
        exact ⟨fun r hr => by simp at hr, fun s hs => by simp at hs⟩
    | some bp =>
        rw [wa_compute_event_bests, hq] at hb
        subst hb
        constructor
        · intro r hr
          simp only [Option.some.injEq] at hr
          subst hr
          exact (minBy_spec secKey _ _ hq).1
        · intro s hs
          simp only at hs
          exact (minBy_spec secKey _ _ hs).1
  · intro cands owDate ev b hmem
    have hb : b = sr_compute_event_bests cands owDate ev :=
      mem_map_pair (sr_compute_event_bests cands owDate) POOL_EVENTS ev b hmem
    cases hq : minBy srSecKey (sr_qualifying cands ev owDate) with
    | none =>
        rw [sr_compute_event_bests, hq] at hb
        subst hb
        exact ⟨fun r hr => by simp at hr, fun s hs => by simp at hs⟩
    | some bp =>
        rw [sr_compute_event_bests, hq] at hb
        subst hb
        constructor
        · intro r hr
          simp only [Option.some.injEq] at hr
          subst hr
          exact (minBy_spec srSecKey _ _ hq).1
        · intro s hs
          simp only at hs
          exact (minBy_spec srSecKey _ _ hs).1

/-- Witness for c3_tie_break_first_encountered on the tied pair: the
selected PB row is the first-encountered tied row and decomposes the
qualifying subset with a strictly-greater prefix. -/
theorem c3_tie_break_first_encountered_witness :
    (("400 Free", EventBests.mk (some tieRowLate) (some tieRowLate)) ∈
        wa_compute_pool_bests [tieRowLate, tieRowEarly] DEMO_DATE) ∧
    (∃ l1 l2, wa_qualifying [tieRowLate, tieRowEarly] "400 Free" DEMO_DATE =
        l1 ++ tieRowLate :: l2 ∧ ∀ z ∈ l1, secKey tieRowLate < secKey z) := by
  have h := c3_tie_break_first_encountered.1 [tieRowLate, tieRowEarly] DEMO_DATE "400 Free"
    ⟨some tieRowLate, some tieRowLate⟩ (by decide)
  exact ⟨by decide, h.1 tieRowLate rfl⟩

/-- The WA node of the C4 counterexample: a recognized 400 Free result
whose course field text contains both a long-course and a short-course
token. -/
def c4Node : Json := Json.obj
  [("Time", Json.str "4:00.00"), ("Date", Json.str "2021-05-10"),
   ("DisciplineName", Json.str "400m Freestyle"), ("Course", Json.str "long 25m")]

/-- The row the scanner retains for that node. -/
def c4Row : PoolRow :=
  ⟨"400 Free", "4:00.00", wa_time_to_seconds "4:00.00", some ⟨2021, 5, 10⟩, none, none⟩

/-- C4 counterexample: the course text of the node contains the
short-course token 25, yet the WA classifier accepts the node (the
long-course patterns are tested first) and the scanner retains the
candidate instead of rejecting it. -/
theorem c4_reject_dominant_counterexample :
    strContains (strLower "long 25m") "25" = true ∧
    wa_is_lcm_50m c4Node = true ∧
    wa_extract_pool_rows c4Node = [c4Row] := by
  refine ⟨by decide, by decide, ?_⟩
  rfl

/-- dict.get on a one-entry JSON object. -/
theorem get_singleton (k k2 s : String) :
    (Json.obj [(k, Json.str s)]).get k2 = if k == k2 then some (Json.str s) else none := by
  by_cases h : (k == k2) = true <;> simp [Json.get, List.find?, h]

/-- Any course field whose text contains long is accepted by the key scan,
whatever other tokens (including short-course ones) the text contains. -/
theorem courseScan_long (k s : String) (hlong : strContains (strLower s) "long" = true) :
    ∀ keys : List String, courseScan (Json.obj [(k, Json.str s)]) keys = true := by
  intro keys
  induction keys with
  | nil => rfl
  | cons k2 ks ih =>
      rw [courseScan, get_singleton]
      by_cases hk2 : (k == k2) = true
      · rw [if_pos hk2]
        simp only [pyStr]
        simp [hlong]
      · rw [if_neg hk2]
        exact ih

/-- C4 amended: reject-dominance holds only in the SwimRankings scraper,
where any scm or 25m anywhere in the assembled row text yields no candidate
whatever else the text contains; in the WA classifier wa_is_lcm_50m the
acceptance patterns of a course field are tested before the short-course
rejection, so a field whose text contains long is accepted outright even
when a short-course token is also present. -/
theorem c4_course_reject_precedence :
    (∀ (k s : String), strContains (strLower s) "long" = true →
        wa_is_lcm_50m (Json.obj [(k, Json.str s)]) = true) ∧
    (∀ tds : List String,
        (strContains (strLower (String.intercalate " | " tds)) "scm" = true ∨
          strContains (strLower (String.intercalate " | " tds)) "25m" = true) →
        srRowCandidate tds = none) := by
  constructor
  · intro k s hlong
    exact courseScan_long k s hlong COURSE_KEYS
  · intro tds h
    have hcond : (strContains (strLower (String.intercalate " | " tds)) "scm" ||
        strContains (strLower (String.intercalate " | " tds)) "25m") = true := by
      rcases h with h | h <;> simp [h]
    unfold srRowCandidate
    split
    · rfl
    · simp only [hcond]
      repeat' split
      all_goals simp_all

/-- Witness for c4_course_reject_precedence: the long-and-25m field is
accepted by the WA classifier, and a SwimRankings row mentioning 25m
produces no candidate. -/
theorem c4_course_reject_precedence_witness :
    strContains (strLower "long 25m") "long" = true ∧
    wa_is_lcm_50m (Json.obj [("Course", Json.str "long 25m")]) = true ∧
    strContains (strLower (String.intercalate " | "
      ["400m Freestyle", "3:55.12", "Meet", "25m pool"])) "25m" = true ∧
    srRowCandidate ["400m Freestyle", "3:55.12", "Meet", "25m pool"] = none := by
  refine ⟨by decide, c4_course_reject_precedence.1 "Course" "long 25m" (by decide),
    by decide, c4_course_reject_precedence.2
      ["400m Freestyle", "3:55.12", "Meet", "25m pool"] (Or.inr (by decide))⟩

theorem wa_guess_event_key_mem (label ev : String)
    (h : wa_guess_event_key label = some ev) : ev ∈ POOL_EVENTS := by
  unfold wa_guess_event_key at h
  split at h
  · exact absurd h (by simp)
  · simp only [] at h
    split at h
    · exact absurd h (by simp)
    · split at h
      · simp only [Option.some.injEq] at h
        subst h
        decide
      · split at h
        · simp only [Option.some.injEq] at h
          subst h
          decide
        · split at h
          · simp only [Option.some.injEq] at h
            subst h
            decide
          · exact absurd h (by simp)

theorem secondaryEventKey_mem (x : Json) :
    ∀ (ks : List String) (ev : String), secondaryEventKey x ks = some ev → ev ∈ POOL_EVENTS := by
  intro ks
  induction ks with
  | nil => intro ev h; simp [secondaryEventKey] at h
  | cons k ks ih =>
      intro ev h
      rw [secondaryEventKey] at h
      split at h
      · simp only [] at h
        split at h
        · rename_i heq
          simp only [Option.some.injEq] at h
          exact wa_guess_event_key_mem _ ev (h ▸ heq)
        · exact ih ev h
      · exact ih ev h

theorem nodeEventKey_mem (x : Json) (label ev : String)
    (h : nodeEventKey x label = some ev) : ev ∈ POOL_EVENTS := by
  unfold nodeEventKey at h
  split at h
  · rename_i heq
    simp only [Option.some.injEq] at h
    exact wa_guess_event_key_mem _ ev (h ▸ heq)
  · exact secondaryEventKey_mem x _ ev h

theorem nodeRowCore_facts (x : Json) (timeVal dateVal labelVal : Option Json) (r : PoolRow)
    (h : nodeRowCore x timeVal dateVal labelVal = some r) :
    r.event ∈ POOL_EVENTS ∧ r.date.isSome = true ∧
      r.seconds = wa_time_to_seconds r.time ∧ wa_is_lcm_50m x = true := by
  simp only [nodeRowCore] at h
  split at h
  · split at h
    · split at h
      · simp only [Option.some.injEq] at h
        subst h
        exact ⟨nodeEventKey_mem x (nodeLabel labelVal) _ (by assumption), rfl, rfl,
          by assumption⟩
      · exact absurd h (by simp)
    · exact absurd h (by simp)
  · exact absurd h (by simp)

theorem nodeRow_facts (x : Json) (r : PoolRow) (h : nodeRow x = some r) :
    r.event ∈ POOL_EVENTS ∧ r.date.isSome = true ∧
      r.seconds = wa_time_to_seconds r.time ∧ wa_is_lcm_50m x = true :=
  nodeRowCore_facts x _ _ _ r h

/-- Every row the visitor returns is produced by nodeRow at some node. -/
theorem visit_row_from_node :
    ∀ js : Json, ∀ r ∈ visitJson js, ∃ x, nodeRow x = some r := by
  refine visitJson.induct
    (fun js => ∀ r ∈ visitJson js, ∃ x, nodeRow x = some r)
    (fun xs => ∀ r ∈ visitList xs, ∃ x, nodeRow x = some r)
    (fun fs => ∀ r ∈ visitFields fs, ∃ x, nodeRow x = some r)
    ?_ ?_ ?_ ?_ ?_ ?_ ?_
  · intro fs ih r hr
    rw [visitJson] at hr
    rcases List.mem_append.mp hr with hr | hr
    · split at hr
      · rename_i r2 hn
        simp only [List.mem_singleton] at hr
        exact ⟨Json.obj fs, hr ▸ hn⟩
      · simp at hr
    · exact ih r hr
  · intro xs ih r hr
    rw [visitJson] at hr
    exact ih r hr
  · intro t h1 h2 r hr
    cases t with
    | obj fs => exact absurd rfl (h1 fs)
    | arr xs => exact absurd rfl (h2 xs)
    | null => simp [visitJson] at hr
    | bool b => simp [visitJson] at hr
    | num n => simp [visitJson] at hr
    | str s => simp [visitJson] at hr
  · intro r hr
    simp [visitList] at hr
  · intro v rest ih1 ih2 r hr
    rw [visitList] at hr
    rcases List.mem_append.mp hr with hr | hr
    · exact ih1 r hr
    · exact ih2 r hr
  · intro r hr
    simp [visitFields] at hr
  · intro kv rest ih1 ih2 r hr
    rw [visitFields] at hr
    rcases List.mem_append.mp hr with hr | hr
    · exact ih1 r hr
    · exact ih2 r hr

/-- The C5 counterexample node: a recognized event label and a parseable
date, but an unparseable time value and no course evidence at all. -/
def c5Node : Json := Json.obj
  [("Time", Json.str "abc"), ("Date", Json.str "2021-05-10"),
   ("DisciplineName", Json.str "400m Freestyle")]

/-- The row the scanner retains for that node: its seconds is None. -/
def c5Row : PoolRow := ⟨"400 Free", "abc", none, some ⟨2021, 5, 10⟩, none, none⟩

/-- C5 counterexample: the scanner retains a candidate whose seconds value
is None (the time parse failed) and whose node carries no course field at
all, so the course is unknown rather than established LongCourse; this
refutes the claimed retention invariant. -/
theorem c5_retention_counterexample :
    wa_extract_pool_rows c5Node = [c5Row] ∧
    c5Row.seconds = none ∧
    (∀ k ∈ COURSE_KEYS, (c5Node.get k).isSome = false) := by
  refine ⟨by rfl, rfl, by decide⟩

/-- C5 amended: every retained candidate row has a recognized target event
and a parsed date, and stems from a node that passed the course check,
which accepts unknown course (rejecting only explicit short-course
evidence); the seconds field is the possibly-failing parse of the time
string, so it may be None and is not checked for positivity at retention
time (the aggregators later drop rows with unparsed seconds). -/
theorem c5_retained_row_invariant :
    ∀ js : Json, ∀ r ∈ wa_extract_pool_rows js,
      r.event ∈ POOL_EVENTS ∧ r.date.isSome = true ∧
        r.seconds = wa_time_to_seconds r.time ∧
        ∃ x, nodeRow x = some r ∧ wa_is_lcm_50m x = true := by
  intro js r hr
  obtain ⟨x, hx⟩ := visit_row_from_node js r hr
  obtain ⟨h1, h2, h3, h4⟩ := nodeRow_facts x r hx
  exact ⟨h1, h2, h3, x, hx, h4⟩

/-- Witness for c5_retained_row_invariant at the counterexample node: the
retained row indeed carries a recognized event and a parsed date. -/
theorem c5_retained_row_invariant_witness :
    c5Row ∈ wa_extract_pool_rows c5Node ∧
    c5Row.event ∈ POOL_EVENTS ∧ c5Row.date.isSome = true := by
  have h := c5_retained_row_invariant c5Node c5Row (by decide)
  exact ⟨by decide, h.1, h.2.1⟩

/-- With no non-empty JSON dict among the responses, the profile probe
returns the empty dict. -/
theorem profileProbe_all_fail (http : String → Option Json) :
    ∀ urls : List String,
      (∀ url ∈ urls, ∀ fs, http url = some (Json.obj fs) → fs = []) →
      profileProbe http urls = Json.obj [] := by
  intro urls
  induction urls with
  | nil => intro h; rfl
  | cons u us ih =>
      intro h
      have htail : ∀ url ∈ us, ∀ fs, http url = some (Json.obj fs) → fs = [] :=
        fun url hurl => h url (List.mem_cons_of_mem u hurl)
      rw [profileProbe]
      cases hu : http u with
      | none => exact ih htail
      | some v =>
          cases v with
          | obj fs =>
              have hfs : fs = [] := h u (List.mem_cons_self u us) fs hu
              subst hfs
              simpa using ih htail
          | null => exact ih htail
          | bool b => exact ih htail
          | num n => exact ih htail
          | str s => exact ih htail
          | arr xs => exact ih htail

/-- The profile probe returns the first non-empty dict response, whatever
follows it in the candidate list. -/
theorem profileProbe_first_dict (http : String → Option Json) :
    ∀ (pre : List String) (url : String) (rest : List String) (fs : List (String × Json)),
      (∀ u ∈ pre, ∀ fs2, http u = some (Json.obj fs2) → fs2 = []) →
      http url = some (Json.obj fs) → fs ≠ [] →
      profileProbe http (pre ++ url :: rest) = Json.obj fs := by
  intro pre
  induction pre with
  | nil =>
      intro url rest fs _ hurl hfs
      rw [List.nil_append, profileProbe, hurl]
      simp [List.isEmpty_iff, hfs]
  | cons u us ih =>
      intro url rest fs hpre hurl hfs
      have htail : ∀ u2 ∈ us, ∀ fs2, http u2 = some (Json.obj fs2) → fs2 = [] :=
        fun u2 hu2 => hpre u2 (List.mem_cons_of_mem u hu2)
      rw [List.cons_append, profileProbe]
      cases hu : http u with
      | none => exact ih url rest fs htail hurl hfs
      | some v =>
          cases v with
          | obj fs2 =>
              have h2 : fs2 = [] := hpre u (List.mem_cons_self u us) fs2 hu
              subst h2
              simpa using ih url rest fs htail hurl hfs
          | null => exact ih url rest fs htail hurl hfs
          | bool b => exact ih url rest fs htail hurl hfs
          | num n => exact ih url rest fs htail hurl hfs
          | str s => exact ih url rest fs htail hurl hfs
          | arr xs => exact ih url rest fs htail hurl hfs

/-- C6 amended: the profile fetch succeeds only on a non-empty JSON object
- a non-empty JSON array is skipped, probing continues - and the first such
object short-circuits the remaining templates; when no template yields a
non-empty object the result is the empty dict, the no-data value handed
back to callers (exceptions are swallowed: the function is total). -/
theorem c6_profile_probe_policy :
    (∀ (http : String → Option Json) (waId : String),
        (∀ url ∈ wa_profile_candidates waId, ∀ fs, http url = some (Json.obj fs) → fs = []) →
        fetch_wa_profile http waId = Json.obj []) ∧
    (∀ (http : String → Option Json) (waId : String) (pre : List String) (url : String)
        (rest : List String) (fs : List (String × Json)),
        waId ≠ "" →
        wa_profile_candidates waId = pre ++ url :: rest →
        (∀ u ∈ pre, ∀ fs2, http u = some (Json.obj fs2) → fs2 = []) →
        http url = some (Json.obj fs) → fs ≠ [] →
        fetch_wa_profile http waId = Json.obj fs) := by
  constructor
  · intro http waId h
    unfold fetch_wa_profile
    split
    · rfl
    · exact profileProbe_all_fail http (wa_profile_candidates waId) h
  · intro http waId pre url rest fs hid hsplit hpre hurl hfs
    unfold fetch_wa_profile
    rw [if_neg hid, hsplit]
    exact profileProbe_first_dict http pre url rest fs hpre hurl hfs

/-- The C6 oracle: the first profile endpoint answers a non-empty JSON
array, the second a non-empty JSON object, the rest fail. -/
def c6Http (url : String) : Option Json :=
  if url = FINA_BASE ++ "/persons/7" then some (Json.arr [Json.num 1])
  else if url = FINA_BASE ++ "/person/7" then some (Json.obj [("a", Json.num 1)])
  else none

/-- C6 counterexample: the first endpoint returns a non-empty JSON array -
per the claim a success that short-circuits the probing - yet the profile
fetch skips it and returns the object served by the second endpoint. -/
theorem c6_profile_array_counterexample :
    c6Http (FINA_BASE ++ "/persons/7") = some (Json.arr [Json.num 1]) ∧
    (Json.arr [Json.num 1]).truthy = true ∧
    fetch_wa_profile c6Http "7" = Json.obj [("a", Json.num 1)] := by
  refine ⟨by rfl, by rfl, by rfl⟩

/-- Witness for c6_profile_probe_policy at the array-then-object oracle. -/
theorem c6_profile_probe_policy_witness :
    fetch_wa_profile c6Http "7" = Json.obj [("a", Json.num 1)] := by
  refine c6_profile_probe_policy.2 c6Http "7" [FINA_BASE ++ "/persons/7"]
    (FINA_BASE ++ "/person/7")
    [FINA_BASE ++ "/athletes/7", FINA_BASE ++ "/athlete/7", FINA_BASE ++ "/competitors/7",
     FINA_BASE ++ "/competitor/7", FINA_BASE ++ "/profiles/7", FINA_BASE ++ "/profile/7"]
    [("a", Json.num 1)] (by decide) (by rfl) ?_ (by rfl) (by simp)
  intro u hu fs2 hc
  simp only [List.mem_singleton] at hu
  subst hu
  rw [show c6Http (FINA_BASE ++ "/persons/7") = some (Json.arr [Json.num 1]) from rfl] at hc
  exact absurd hc (by simp)

/-- The pool-results probe skips failed and falsy responses. -/
theorem poolProbe_skip (http : String → Option Json) (owDate : Date) :
    ∀ (pre : List String) (tail : List String),
      (∀ u ∈ pre, ∀ js, http u = some js → js.truthy = false) →
      poolProbe http owDate (pre ++ tail) = poolProbe http owDate tail := by
  intro pre
  induction pre with
  | nil => intro tail _; rfl
  | cons u us ih =>
      intro tail hpre
      have htail : ∀ u2 ∈ us, ∀ js, http u2 = some js → js.truthy = false :=
        fun u2 hu2 => hpre u2 (List.mem_cons_of_mem u hu2)
      rw [List.cons_append, poolProbe]
      cases hu : http u with
      | none => exact ih tail htail
      | some js =>
          have hf : js.truthy = false := hpre u (List.mem_cons_self u us) js hu
          simpa [hf] using ih tail htail

/-- At the first truthy payload the probe is final: extracted rows empty
means the empty mapping, with no further endpoint consulted. -/
theorem poolProbe_stops_empty (http : String → Option Json) (owDate : Date)
    (pre : List String) (url : String) (rest : List String) (js : Json)
    (hpre : ∀ u ∈ pre, ∀ js2, http u = some js2 → js2.truthy = false)
    (hurl : http url = some js) (htr : js.truthy = true)
    (hrows : wa_extract_pool_rows js = []) :
    poolProbe http owDate (pre ++ url :: rest) = [] := by
  rw [poolProbe_skip http owDate pre (url :: rest) hpre, poolProbe, hurl]
  simp [htr, hrows]

/-- C10: when the first candidate endpoint answering a truthy JSON payload
yields zero recognizable rows, fetch_wa_pool_best_attempt returns the empty
mapping at once, and the result does not depend on any response after that
endpoint - the remaining candidates are never probed. -/
theorem c10_pool_probe_stops_on_empty_rows :
    ∀ (http : String → Option Json) (waId : String) (owDate : Date)
      (pre : List String) (url : String) (rest : List String) (js : Json),
      waId ≠ "" →
      wa_pool_candidates waId = pre ++ url :: rest →
      (∀ u ∈ pre, ∀ js2, http u = some js2 → js2.truthy = false) →
      http url = some js → js.truthy = true →
      wa_extract_pool_rows js = [] →
      fetch_wa_pool_best_attempt http waId owDate = [] ∧
      (∀ http2 : String → Option Json,
          (∀ u ∈ pre, http2 u = http u) → http2 url = http url →
          fetch_wa_pool_best_attempt http2 waId owDate = []) := by
  intro http waId owDate pre url rest js hid hsplit hpre hurl htr hrows
  constructor
  · unfold fetch_wa_pool_best_attempt
    rw [if_neg hid, hsplit]
    exact poolProbe_stops_empty http owDate pre url rest js hpre hurl htr hrows
  · intro http2 hagree hsame
    unfold fetch_wa_pool_best_attempt
    rw [if_neg hid, hsplit]
    refine poolProbe_stops_empty http2 owDate pre url rest js ?_ ?_ htr hrows
    · intro u hu js2 h2
      exact hpre u hu js2 ((hagree u hu) ▸ h2)
    · rw [hsame, hurl]

/-- The C10 oracle: the first pool endpoint raises, the second answers a
truthy object in which the scanner finds nothing, the rest would answer
rich payloads but are never reached. -/
def c10Http (url : String) : Option Json :=
  if url = FINA_BASE ++ "/persons/7/results" then none
  else if url = FINA_BASE ++ "/person/7/results" then some (Json.obj [("a", Json.num 1)])
  else some (Json.obj [("Time", Json.str "4:00.00"), ("Date", Json.str "2021-05-10"),
    ("DisciplineName", Json.str "400m Freestyle")])

/-- Witness for c10_pool_probe_stops_on_empty_rows at the concrete oracle:
the empty mapping is returned although a later endpoint would have served a
recognizable row. -/
theorem c10_pool_probe_stops_on_empty_rows_witness :
    fetch_wa_pool_best_attempt c10Http "7" DEMO_DATE = [] := by
  refine (c10_pool_probe_stops_on_empty_rows c10Http "7" DEMO_DATE
    [FINA_BASE ++ "/persons/7/results"] (FINA_BASE ++ "/person/7/results")
    [FINA_BASE ++ "/athletes/7/results", FINA_BASE ++ "/athlete/7/results"]
    (Json.obj [("a", Json.num 1)]) (by decide) (by rfl) ?_ (by rfl) (by rfl) (by rfl)).1
  intro u hu js2 h2
  simp only [List.mem_singleton] at hu
  subst hu
  rw [show c10Http (FINA_BASE ++ "/persons/7/results") = none from rfl] at h2
  exact absurd h2 (by simp)

/-- C7 amended: the reference date is competition-level (To, else From);
when neither is available, main logs the error and returns before the race
loop, so the entire run is aborted: no race of the competition is processed
at all, rather than one race being skipped while others continue. -/
theorem c7_missing_reference_date_aborts_run :
    (∀ {α : Type} (compTo compFrom : Option Date) (picked : List String)
        (processRace : String → Date → List α),
        ow_date_of compTo compFrom = none →
        main_rows compTo compFrom picked processRace = []) ∧
    (∀ {α : Type} (d : Date) (compFrom : Option Date) (picked : List String)
        (processRace : String → Date → List α) (ev : String),
        ev ∈ picked → ∀ row ∈ processRace ev d,
          row ∈ main_rows (some d) compFrom picked processRace) := by
  constructor
  · intro α compTo compFrom picked processRace hnone
    unfold main_rows
    rw [hnone]
    simp
  · intro α d compFrom picked processRace ev hev row hrow
    unfold main_rows
    rw [if_neg (by exact List.ne_nil_of_mem hev ∘ List.isEmpty_iff.mp)]
    exact List.mem_flatMap.mpr ⟨ev, hev, hrow⟩

/-- C7 counterexample: with two picked races, each of which would produce a
row under any reference date, and no competition From or To date, the run
produces nothing at all - the orchestrator does not continue with the other
races, it aborts before the race loop; with a date present both races are
processed. -/
theorem c7_missing_reference_date_counterexample :
    main_rows (α := Nat) none none ["OW 10km Women", "OW 10km Men"] (fun _ _ => [1]) = [] ∧
    ["OW 10km Women", "OW 10km Men"] ≠ [] ∧
    main_rows (α := Nat) (some DEMO_DATE) none ["OW 10km Women", "OW 10km Men"]
      (fun _ _ => [1]) = [1, 1] := by
  refine ⟨rfl, by simp, rfl⟩

/-- Witness for c7_missing_reference_date_aborts_run: both competition
dates missing yields no rows although two races were picked. -/
theorem c7_missing_reference_date_aborts_run_witness :
    main_rows (α := Nat) none none ["OW 10km Women", "OW 10km Men"] (fun _ _ => [1]) = [] :=
  c7_missing_reference_date_aborts_run.1 none none
    ["OW 10km Women", "OW 10km Men"] (fun _ _ => [1]) rfl

/-- C8: cache idempotence of the SwimRankings scrape.  A first call leaves
some state; a second call with the same athlete and reference date and no
intervening write returns exactly the first result and the unchanged state:
in particular the network-call counter does not move, so zero additional
fetches are performed.  The cache has no TTL (an entry never expires), so
the entry is always fresh. -/
theorem c8_cache_idempotent (fetchPage : Nat → List (List String))
    (athleteId : Nat) (owDate : Date) (st : ScrapeState) :
    swimrankings_scrape_pool_bests fetchPage athleteId owDate
        (swimrankings_scrape_pool_bests fetchPage athleteId owDate st).2 =
      swimrankings_scrape_pool_bests fetchPage athleteId owDate st := by
  unfold swimrankings_scrape_pool_bests
  cases hfind : st.cache.find? (fun kv =>
      kv.1 == (athleteId, owDate.year, owDate.isoformat)) with
  | some kv => simp [hfind]
  | none =>
      simp only [hfind]
      have hhit : List.find? (fun kv => kv.1 == (athleteId, owDate.year, owDate.isoformat))
          (((athleteId, owDate.year, owDate.isoformat),
            sr_compute_bests (srExtractCandidates (fetchPage athleteId)) owDate) ::
              st.cache) =
          some ((athleteId, owDate.year, owDate.isoformat),
            sr_compute_bests (srExtractCandidates (fetchPage athleteId)) owDate) := by
        rw [List.find?_cons]
        simp
      simp [hhit]
